import Mathlib

/-!
Verification of the qwen-code-oai-proxy dispatch core.

The JavaScript sources are shallowly embedded: JS strings are modelled as
`String` or `List Char` (where inductive reasoning over the characters is
needed), JS numbers as `Int`/`Nat`/`Rat`, fallible or optional values as
`Option`, and the observable effects of the Express handlers as small
inductive action types.  Each definition mirrors one function of the
sources; the theorems at the end of the file settle the claims.
-/

set_option autoImplicit false

/-! ### Definitions -/

/-- JavaScript `String.prototype.split(sep)` restricted to a one-character
separator, over the character list of the string.  `split` always returns a
non-empty array: splitting the empty string gives `[""]`. -/
def jsSplit (sep : Char) : List Char → List (List Char)
  | [] => [[]]
  | c :: cs =>
    let r := jsSplit sep cs
    if c = sep then [] :: r else (c :: r.headD []) :: r.tail

/-- Inverse of `jsSplit`: re-joins the pieces with the separator between
them (the JS `Array.prototype.join(sep)`). -/
def unsplit (sep : Char) : List (List Char) → List Char
  | [] => []
  | [x] => x
  | x :: y :: t => x ++ sep :: unsplit sep (y :: t)

/-- All pieces but the last — the JS idiom `lines.pop()` leaves exactly
these in `lines`. -/
def initStrs : List (List Char) → List (List Char)
  | [] => []
  | [_] => []
  | x :: y :: t => x :: initStrs (y :: t)

/-- The carried-over remainder — the value of the JS `lines.pop() || ''`. -/
def lastStr : List (List Char) → List Char
  | [] => []
  | [x] => x
  | _ :: y :: t => lastStr (y :: t)

/-- JS `line.endsWith('\n')` on a character list. -/
def endsWithNL : List Char → Bool
  | [] => false
  | [c] => c == '\n'
  | _ :: y :: t => endsWithNL (y :: t)

/-- Body of the `for (const line of lines)` loop of
`SSEChunkHandler._transform` (src/qwen/api.js): a complete line gets its
newline restored only when it starts with `data:` or `event:` or is blank. -/
def fmtLine (l : List Char) : List Char :=
  if "data:".toList.isPrefixOf l && !endsWithNL l then l ++ ['\n']
  else if "event:".toList.isPrefixOf l && !endsWithNL l then l ++ ['\n']
  else if l.isEmpty && !endsWithNL l then l ++ ['\n']
  else l

/-- Transform step `SSEChunkHandler._transform` for one incoming chunk: append the chunk to
the carry-over buffer, split on `'\n'`, keep the last (incomplete) piece as
the new buffer, and emit the formatted complete lines.  Returns
`(pushed bytes, new buffer)`. -/
def sseTransform (buffer chunk : List Char) : List Char × List Char :=
  let lines := jsSplit '\n' (buffer ++ chunk)
  (((initStrs lines).map fmtLine).flatten, lastStr lines)

/-- Running `SSEChunkHandler` over a whole sequence of upstream chunks,
starting from the given buffer, including the `_flush` of the remaining
buffer at end-of-stream.  The result is the concatenation of all pushed
bytes. -/
def runSSE : List Char → List (List Char) → List Char
  | buffer, [] => buffer
  | buffer, c :: cs => (sseTransform buffer c).1 ++ runSSE (sseTransform buffer c).2 cs

/-- A complete line the handler re-terminates: `data:` line, `event:` line,
or blank (end-of-record) line. -/
def sseLine (l : List Char) : Bool :=
  "data:".toList.isPrefixOf l || "event:".toList.isPrefixOf l || l.isEmpty

/-- JS `s.startsWith(pre)`. -/
def strStartsWith (s pre : String) : Bool := pre.toList.isPrefixOf s.toList

/-- JS `s.endsWith(post)`. -/
def strEndsWith (s post : String) : Bool := post.toList.isSuffixOf s.toList

/-- JS whitespace recognized by `String.prototype.trim`. -/
def isSpaceChar (c : Char) : Bool := c == ' ' || c == '\t' || c == '\n' || c == '\r'

/-- JS `s.trim()`. -/
def jsTrim (s : String) : String :=
  String.mk (((s.toList.dropWhile isSpaceChar).reverse.dropWhile isSpaceChar).reverse)

/-- JS `s.substring(n)` / dropping the first `n` characters. -/
def strDrop (s : String) (n : Nat) : String := String.mk (s.toList.drop n)

/-- JS `a || b` on two possibly-undefined strings: the empty string is
falsy, so it falls through to `b`. -/
def jsOr (a b : Option String) : Option String :=
  match a with
  | some s => if s = "" then b else some s
  | none => b

/-! #### C2 — streaming error path (src/index.js
`handleStreamingChatCompletion`, `stream.on('error')`), using the error
shapes of src/utils/errorFormatter.js -/

/-- The `\x7b status, body \x7d` object produced by
`ErrorFormatter.openAIApiError`: HTTP status plus the OpenAI-shaped
`\x7b error: \x7b message, type, code \x7d \x7d` body. -/
structure ErrorResponse where
  status : Nat
  message : String
  etype : String
  code : Nat
deriving DecidableEq

def openAIApiError (message etype : String) (code : Nat) : ErrorResponse :=
  { status := code, message := message, etype := etype, code := code }

/-- Shorthand `ErrorFormatter.openAIValidationError`. -/
def openAIValidationError (message : String) : ErrorResponse :=
  openAIApiError message "validation_error" 400

/-- The observable actions a handler performs on the HTTP response:
`res.status(e.status).json(e.body)`, `res.write(s)`, and `res.end()`. -/
inductive RespAction where
  | statusJson (e : ErrorResponse)
  | write (s : String)
  | endResponse
deriving DecidableEq

/-- Stream error handler `stream.on('error')` of
`handleStreamingChatCompletion` (src/index.js): only when the response
headers have not been sent yet, the HTTP error
`ErrorFormatter.openAIApiError(error.message, 'streaming_error')` — a 500
JSON body, not an SSE record — is sent; the response is always ended. -/
def handleStreamError (headersSent : Bool) (msg : String) : List RespAction :=
  (if headersSent then []
   else [RespAction.statusJson (openAIApiError msg "streaming_error" 500)])
    ++ [RespAction.endResponse]

/-! #### C3 — proxy-wide API key middleware (src/index.js `validateApiKey`) -/

/-- Modelled from the spec: `config.js` is not among the sources.  The
spec's environment surface says `API_KEY (optional bootstrap key or
list)`, so the configured local keys are an optional list of strings and
`config.apiKey?.includes(k)` is list membership. -/
abbrev ConfigApiKey : Type := Option (List String)

/-- Outcome of an Express middleware: pass the request on, or short-circuit
with an error response. -/
inductive ProxyOutcome where
  | next
  | reject (status : Nat) (etype : String) (message : String)
deriving DecidableEq

/-- The key the middleware extracts from the request:
`req.headers["x-api-key"] || req.headers["authorization"]`, stripped of a
`Bearer ` prefix and trimmed. -/
def cleanApiKeyOf (xApiKeyHeader authHeader : Option String) : Option String :=
  match jsOr xApiKeyHeader authHeader with
  | some s => if strStartsWith s "Bearer " then some (jsTrim (strDrop s 7)) else some (jsTrim s)
  | none => none

/-- Middleware `validateApiKey` of src/index.js: skipped entirely when no API key is
configured; otherwise rejects with 401 `authentication_error` unless the
extracted key is non-empty and among the configured keys. -/
def proxyValidateApiKey (configApiKey : ConfigApiKey)
    (xApiKeyHeader authHeader : Option String) : ProxyOutcome :=
  match configApiKey with
  | none => ProxyOutcome.next
  | some keys =>
    match cleanApiKeyOf xApiKeyHeader authHeader with
    | none => ProxyOutcome.reject 401 "authentication_error" "Invalid or missing API key"
    | some k =>
      if k = "" then ProxyOutcome.reject 401 "authentication_error" "Invalid or missing API key"
      else if keys.contains k then ProxyOutcome.next
      else ProxyOutcome.reject 401 "authentication_error" "Invalid or missing API key"

/-! #### C4 / C5 — upstream endpoint resolution and token refresh
(src/qwen/api.js `getApiEndpoint`, src/qwen/auth.js `newCredentials`) -/

/-- Persisted OAuth credential bundle of one account. -/
structure QwenCredentials where
  access_token : Option String
  token_type : Option String
  refresh_token : Option String
  resource_url : Option String
  expiry_date : Int
deriving DecidableEq

def DEFAULT_QWEN_API_BASE_URL : String := "https://dashscope.aliyuncs.com/compatible-mode/v1"

/-- Endpoint resolution `getApiEndpoint(credentials)`: the vendor default base unless the
credentials carry a (non-empty) `resource_url`, which is then given an
`https://` scheme when it does not start with `http`, and a `/v1` suffix
when missing (`v1` alone after a trailing slash). -/
def getApiEndpoint : Option QwenCredentials → String
  | none => DEFAULT_QWEN_API_BASE_URL
  | some credentials =>
    match credentials.resource_url with
    | none => DEFAULT_QWEN_API_BASE_URL
    | some r =>
      if r = "" then DEFAULT_QWEN_API_BASE_URL
      else
        let endpoint := if strStartsWith r "http" then r else "https://" ++ r
        if strEndsWith endpoint "/v1" then endpoint
        else if strEndsWith endpoint "/" then endpoint ++ "v1"
        else endpoint ++ "/v1"

/-- The claim's literal description of the endpoint policy: `https://`
prepended when the scheme is missing and the string `/v1` appended whenever
the URL does not already end with `/v1`. -/
def specEffectiveBase : Option QwenCredentials → String
  | none => DEFAULT_QWEN_API_BASE_URL
  | some credentials =>
    match credentials.resource_url with
    | none => DEFAULT_QWEN_API_BASE_URL
    | some r =>
      if r = "" then DEFAULT_QWEN_API_BASE_URL
      else
        let withScheme := if strStartsWith r "http" then r else "https://" ++ r
        if strEndsWith withScheme "/v1" then withScheme else withScheme ++ "/v1"

/-- The amended endpoint policy: as the claim states it, except that after a
trailing slash only `v1` is appended, so the result never gains a double
slash. -/
def specEffectiveBaseAmended : Option QwenCredentials → String
  | none => DEFAULT_QWEN_API_BASE_URL
  | some credentials =>
    match credentials.resource_url with
    | none => DEFAULT_QWEN_API_BASE_URL
    | some r =>
      if r = "" then DEFAULT_QWEN_API_BASE_URL
      else
        let withScheme := if strStartsWith r "http" then r else "https://" ++ r
        if strEndsWith withScheme "/v1" then withScheme
        else if strEndsWith withScheme "/" then withScheme ++ "v1"
        else withScheme ++ "/v1"

/-- The token bundle returned by the vendor's refresh endpoint. -/
structure TokenData where
  access_token : String
  token_type : String
  refresh_token : Option String
  resource_url : Option String
  expires_in : Int
deriving DecidableEq

/-- The `newCredentials` object built after a successful refresh-token
exchange (`...credentials` spread, `tokenData.refresh_token ||
credentials.refresh_token`, `tokenData.resource_url ||
credentials.resource_url`, `Date.now() + tokenData.expires_in * 1000`). -/
def newCredentials (credentials : QwenCredentials) (tokenData : TokenData)
    (now : Int) : QwenCredentials :=
  { credentials with
    access_token := some tokenData.access_token
    token_type := some tokenData.token_type
    refresh_token := jsOr tokenData.refresh_token credentials.refresh_token
    resource_url := jsOr tokenData.resource_url credentials.resource_url
    expiry_date := now + tokenData.expires_in * 1000 }

/-! #### C6 — background refresh sweep
(src/utils/accountRefreshScheduler.js `checkAndRefreshExpiredAccounts`) -/

/-- Minutes left before expiry: `(credentials.expiry_date - Date.now()) / 60000`. -/
def minutesLeftOf (expiry now : Int) : Rat := ((expiry - now : Int) : Rat) / 60000

/-- Random threshold `Math.floor(Math.random() * 21) + 10` with `k ∈ [0, 20]` the drawn
value of `Math.floor(Math.random() * 21)`. -/
def refreshThreshold (k : Nat) : Nat := k + 10

/-- Per-account selection decision of one sweep of
`checkAndRefreshExpiredAccounts`: expired accounts, accounts within 10
minutes of expiry, and accounts within the freshly drawn random threshold
are pushed onto `accountsToRefresh`. -/
def checkAccountForRefresh (expiry now : Int) (k : Nat) : Bool :=
  if expiry ≤ now then true
  else if minutesLeftOf expiry now ≤ 10 then true
  else if minutesLeftOf expiry now ≤ (refreshThreshold k : Rat) then true
  else false

/-! #### C7 / C10 — dashboard API-key middleware
(src/dashboard/middleware/apikey.js `ApiKeyMiddleware`) -/

/-- The snapshot attached to a request after `apiKeyManager.validateKey`
(the snapshot carries no `status` field, hence the `Option`). -/
structure DashKeyData where
  id : String
  name : String
  status : Option String
  permissions : List String
  rateLimit : Option Nat
deriving DecidableEq

/-- Lookup `permissionMap[endpoint] || []` for the endpoint-to-permission object
literal of `checkPermissions`. -/
def permissionMapLookup (endpoint : String) : List String :=
  if endpoint = "/v1/chat/completions" then ["chat.completions", "chat.completions.create"]
  else if endpoint = "/v1/models" then ["models.list", "models.read"]
  else []

/-- Permission check `ApiKeyMiddleware.checkPermissions`: endpoints without an entry in the
map require nothing; `*` or `full_access` passes everything; otherwise any
one of the required permissions suffices. -/
def checkPermissions (endpoint : String) (permissions : List String) : Bool :=
  let requiredPerms := permissionMapLookup endpoint
  if requiredPerms.length = 0 then true
  else if permissions.contains "*" || permissions.contains "full_access" then true
  else requiredPerms.any (fun perm => permissions.contains perm)

/-- Outcome of the dashboard API-key middleware. -/
inductive MwOutcome where
  | reject (status : Nat) (etype : String) (code : String)
  | accept (keyId : String)
deriving DecidableEq

/-- Middleware `ApiKeyMiddleware.validateApiKey`: header present and `Bearer `-shaped,
format check, hash lookup (the `validateKey` collaborator is a parameter),
revoked/disabled check, then the permission check — 403 `permission_error`
when it fails. -/
def mwValidateApiKey (authHeader : Option String)
    (validateKeyFn : String → Option DashKeyData) (endpoint : String) : MwOutcome :=
  match authHeader with
  | none => MwOutcome.reject 401 "invalid_request_error" "missing_authorization"
  | some h =>
    if ¬ strStartsWith h "Bearer " then
      MwOutcome.reject 401 "invalid_request_error" "missing_authorization"
    else
      let apiKey := jsTrim (strDrop h 7)
      if ¬ strStartsWith apiKey "sk-proj-" ∨ apiKey.length < 20 then
        MwOutcome.reject 401 "invalid_request_error" "invalid_api_key"
      else
        match validateKeyFn apiKey with
        | none => MwOutcome.reject 401 "invalid_request_error" "invalid_api_key"
        | some keyData =>
          if keyData.status = some "revoked" ∨ keyData.status = some "disabled" then
            MwOutcome.reject 401 "invalid_request_error" "api_key_disabled"
          else if ¬ checkPermissions endpoint keyData.permissions then
            MwOutcome.reject 403 "permission_error" "insufficient_permissions"
          else MwOutcome.accept keyData.id

/-! #### C8 — API-key store (src/utils/apiKeyManager.js).  The PBKDF2
derivation itself is node's `crypto.pbkdf2`, taken as an abstract function
parameter `pbkdf2 key salt iterations` returning the hex-encoded derived
key; `crypto.timingSafeEqual` on equal-length hex strings is equality. -/

/-- One record of `api_keys.json`; scan order is object insertion order. -/
structure KeyEntry where
  id : List Char
  name : List Char
  description : List Char
  keyHash : List Char
  keyPrefix : List Char
  keySuffix : List Char
  maskedKey : List Char
  status : List Char
  permissions : List (List Char)
  rateLimit : Option Nat
  createdAt : List Char
  lastUsed : Option (List Char)
  usageCount : Nat
deriving DecidableEq

def hashConfigIterations : Nat := 260000

def hashConfigDigest : List Char := "sha256".toList

/-- Hashing `hashApiKey`: the stored hash string
`pbkdf2_<digest>$<iterations>$<salt>$<derivedKeyHex>`, for the freshly
drawn random `salt`. -/
def hashApiKey (pbkdf2 : List Char → List Char → Nat → List Char)
    (apiKey salt : List Char) : List Char :=
  "pbkdf2_".toList ++ hashConfigDigest
    ++ '$' :: (Nat.toDigits 10 hashConfigIterations
    ++ '$' :: (salt ++ '$' :: pbkdf2 apiKey salt hashConfigIterations))

/-- JS `parseInt` on the decimal strings occurring in stored hashes. -/
def parseIntJS (s : List Char) : Nat :=
  (s.takeWhile Char.isDigit).foldl (fun acc c => acc * 10 + (c.toNat - 48)) 0

/-- Verification `verifyApiKey(apiKey, storedHash)`: parse the four `$`-separated
fields, check the algorithm tag, recompute PBKDF2 with the stored salt and
iteration count, and compare with the stored derived key. -/
def verifyApiKey (pbkdf2 : List Char → List Char → Nat → List Char)
    (apiKey storedHash : List Char) : Bool :=
  let parts := jsSplit '$' storedHash
  if parts.length ≠ 4 then false
  else if parts.headD [] ≠ "pbkdf2_".toList ++ hashConfigDigest then false
  else
    let iterations := parseIntJS (parts.getD 1 [])
    let salt := parts.getD 2 []
    let storedDerivedKey := parts.getD 3 []
    pbkdf2 apiKey salt iterations == storedDerivedKey

/-- Generation `generateApiKey`: `'sk-proj-'` plus 48 random hex characters (the
drawn characters are the parameter). -/
def generateApiKey (randHex : List Char) : List Char := "sk-proj-".toList ++ randHex

/-- Creation `createKey`: build the metadata record (status `active`), append it to
the store, and hand the plaintext key back once.  The random draws
(`randHex`, `keyId`, `salt`) and the clock (`createdAt`) are parameters. -/
def createKey (pbkdf2 : List Char → List Char → Nat → List Char)
    (store : List KeyEntry) (name description : List Char)
    (permissions : List (List Char)) (rateLimit : Option Nat)
    (randHex keyId salt createdAt : List Char) : List KeyEntry × List Char :=
  let apiKey := generateApiKey randHex
  let keyHash := hashApiKey pbkdf2 apiKey salt
  let entry : KeyEntry :=
    { id := keyId, name := name, description := description, keyHash := keyHash,
      keyPrefix := apiKey.take 8, keySuffix := apiKey.drop (apiKey.length - 4),
      maskedKey := apiKey.take 8 ++ "...".toList ++ apiKey.drop (apiKey.length - 4),
      status := "active".toList, permissions := permissions, rateLimit := rateLimit,
      createdAt := createdAt, lastUsed := none, usageCount := 0 }
  (store ++ [entry], apiKey)

/-- The metadata snapshot `validateKey` returns on a match. -/
structure KeySnapshot where
  id : List Char
  name : List Char
  permissions : List (List Char)
  rateLimit : Option Nat
deriving DecidableEq

/-- The `for (const [keyId, keyData] of Object.entries(keysData.keys))`
loop of `validateKey`: only `active` entries are tried. -/
def validateKeyScan (pbkdf2 : List Char → List Char → Nat → List Char)
    (apiKey : List Char) : List KeyEntry → Option KeySnapshot
  | [] => none
  | e :: rest =>
    if e.status = "active".toList then
      if verifyApiKey pbkdf2 apiKey e.keyHash then
        some { id := e.id, name := e.name, permissions := e.permissions,
               rateLimit := e.rateLimit }
      else validateKeyScan pbkdf2 apiKey rest
    else validateKeyScan pbkdf2 apiKey rest

/-- Validation `validateKey(apiKey)`: `null` for falsy keys and keys without the
`sk-proj-` prefix, otherwise the scan over the stored entries. -/
def validateKey (pbkdf2 : List Char → List Char → Nat → List Char)
    (store : List KeyEntry) (apiKey : List Char) : Option KeySnapshot :=
  if apiKey = [] then none
  else if ¬ "sk-proj-".toList.isPrefixOf apiKey then none
  else validateKeyScan pbkdf2 apiKey store

/-! #### C9 — web search input validation (src/index.js `handleWebSearch`) -/

/-- A JSON value of a request-body field (`none` = the field is absent). -/
inductive JValue where
  | jnum (n : Int)
  | jstr (s : String)
  | jbool (b : Bool)
  | jnull
deriving DecidableEq

/-- JS truthiness of a destructured body field. -/
def jsTruthy : Option JValue → Bool
  | none => false
  | some (JValue.jnum n) => n != 0
  | some (JValue.jstr s) => s != ""
  | some (JValue.jbool b) => b
  | some JValue.jnull => false

/-- JS `typeof v === 'number'`. -/
def isNumberJV : Option JValue → Bool
  | some (JValue.jnum _) => true
  | _ => false

/-- JS `typeof v === 'string'`. -/
def isStringJV : Option JValue → Bool
  | some (JValue.jstr _) => true
  | _ => false

/-- The numeric value of a field (only consulted on numbers). -/
def jvNum : Option JValue → Int
  | some (JValue.jnum n) => n
  | _ => 0

/-- What `handleWebSearch` does up to (and instead of) the upstream call:
either an input-validation rejection before any account is consulted, or
the upstream `webSearch` call with the defaulted `page || 1` and
`rows || 10`. -/
inductive WebSearchStep where
  | reject (e : ErrorResponse)
  | callUpstream (page rows : Int)
deriving DecidableEq

/-- Input validation of `handleWebSearch` (src/index.js): `query` must be a
truthy string; a truthy `page` must be a number `≥ 1`; a truthy `rows` must
be a number in `[1, 100]`. -/
def handleWebSearch (query page rows : Option JValue) : WebSearchStep :=
  if jsTruthy query = false ∨ isStringJV query = false then
    WebSearchStep.reject (openAIValidationError "Query parameter is required and must be a string")
  else if jsTruthy page = true ∧ (isNumberJV page = false ∨ jvNum page < 1) then
    WebSearchStep.reject (openAIValidationError "Page must be a positive integer")
  else if jsTruthy rows = true ∧ (isNumberJV rows = false ∨ jvNum rows < 1 ∨ 100 < jvNum rows) then
    WebSearchStep.reject (openAIValidationError "Rows must be a number between 1 and 100")
  else
    WebSearchStep.callUpstream (if jsTruthy page = true then jvNum page else 1)
      (if jsTruthy rows = true then jvNum rows else 10)

/-! ### Theorems -/

theorem jsSplit_ne_nil (sep : Char) (s : List Char) : jsSplit sep s ≠ [] := by
  cases s with
  | nil => simp [jsSplit]
  | cons c cs =>
    simp only [jsSplit]
    split <;> simp

theorem jsSplit_cons_sep (sep : Char) (cs : List Char) :
    jsSplit sep (sep :: cs) = [] :: jsSplit sep cs := by
  simp [jsSplit]

theorem jsSplit_cons_ne (sep c : Char) (cs : List Char) (h : c ≠ sep) :
    jsSplit sep (c :: cs) =
      (c :: (jsSplit sep cs).headD []) :: (jsSplit sep cs).tail := by
  simp [jsSplit, h]

theorem jsSplit_append_not_mem (sep : Char) (a b : List Char) (h : sep ∉ a) :
    jsSplit sep (a ++ b) =
      (a ++ (jsSplit sep b).headD []) :: (jsSplit sep b).tail := by
  induction a with
  | nil =>
    simp only [List.nil_append]
    cases hb : jsSplit sep b with
    | nil => exact absurd hb (jsSplit_ne_nil sep b)
    | cons x t => simp
  | cons c a ih =>
    have hc : c ≠ sep := fun hcs => h (hcs ▸ List.mem_cons_self c a)
    have ha : sep ∉ a := fun hm => h (List.mem_cons_of_mem c hm)
    rw [List.cons_append, jsSplit_cons_ne sep c (a ++ b) hc, ih ha]
    simp

theorem not_mem_of_mem_jsSplit (sep : Char) (s : List Char) :
    ∀ l ∈ jsSplit sep s, sep ∉ l := by
  induction s with
  | nil =>
    intro l hl
    simp [jsSplit] at hl
    simp [hl]
  | cons c cs ih =>
    intro l hl
    by_cases hc : c = sep
    · subst hc
      rw [jsSplit_cons_sep] at hl
      rcases List.mem_cons.mp hl with h | h
      · simp [h]
      · exact ih l h
    · rw [jsSplit_cons_ne sep c cs hc] at hl
      cases hr : jsSplit sep cs with
      | nil => exact absurd hr (jsSplit_ne_nil sep cs)
      | cons x t =>
        rw [hr] at hl
        simp only [List.headD_cons, List.tail_cons] at hl
        rcases List.mem_cons.mp hl with h | h
        · subst h
          intro hm
          rcases List.mem_cons.mp hm with h | h
          · exact hc h.symm
          · exact ih x (hr ▸ List.mem_cons_self x t) h
        · exact ih l (hr ▸ List.mem_cons_of_mem x h)

theorem unsplit_cons_cons (sep c : Char) (h : List Char) (t : List (List Char)) :
    unsplit sep ((c :: h) :: t) = c :: unsplit sep (h :: t) := by
  cases t <;> simp [unsplit]

theorem unsplit_jsSplit (sep : Char) (s : List Char) :
    unsplit sep (jsSplit sep s) = s := by
  induction s with
  | nil => simp [jsSplit, unsplit]
  | cons c cs ih =>
    by_cases hc : c = sep
    · subst hc
      rw [jsSplit_cons_sep]
      cases hr : jsSplit c cs with
      | nil => exact absurd hr (jsSplit_ne_nil c cs)
      | cons x t =>
        rw [hr] at ih
        simpa [unsplit] using ih
    · rw [jsSplit_cons_ne sep c cs hc]
      cases hr : jsSplit sep cs with
      | nil => exact absurd hr (jsSplit_ne_nil sep cs)
      | cons x t =>
        rw [hr] at ih
        simpa [unsplit_cons_cons] using congrArg (c :: ·) ih

theorem lastStr_cons_cons (x y : List Char) (t : List (List Char)) :
    lastStr (x :: y :: t) = lastStr (y :: t) := rfl

theorem initStrs_cons_cons (x y : List Char) (t : List (List Char)) :
    initStrs (x :: y :: t) = x :: initStrs (y :: t) := rfl

theorem lastStr_mem (ps : List (List Char)) (h : ps ≠ []) : lastStr ps ∈ ps := by
  induction ps with
  | nil => exact absurd rfl h
  | cons x t ih =>
    cases t with
    | nil => simp [lastStr]
    | cons y t' =>
      rw [lastStr_cons_cons]
      exact List.mem_cons_of_mem x (ih (by simp))

theorem mem_of_mem_initStrs (ps : List (List Char)) (l : List Char)
    (h : l ∈ initStrs ps) : l ∈ ps := by
  induction ps with
  | nil => simp [initStrs] at h
  | cons x t ih =>
    cases t with
    | nil => simp [initStrs] at h
    | cons y t' =>
      rw [initStrs_cons_cons] at h
      rcases List.mem_cons.mp h with h' | h'
      · exact h' ▸ List.mem_cons_self x _
      · exact List.mem_cons_of_mem x (ih h')

theorem initStrs_append_ne_nil (A B : List (List Char)) (hB : B ≠ []) :
    initStrs (A ++ B) = A ++ initStrs B := by
  induction A with
  | nil => simp
  | cons x A' ih =>
    cases A' with
    | nil =>
      cases B with
      | nil => exact absurd rfl hB
      | cons b t => simp [initStrs_cons_cons]
    | cons a A'' =>
      rw [List.cons_append, List.cons_append, initStrs_cons_cons, ← List.cons_append, ih]
      simp

theorem jsSplit_unsplit_append (sep : Char) (ps : List (List Char)) (y : List Char)
    (hne : ps ≠ []) (hfree : ∀ l ∈ ps, sep ∉ l) :
    jsSplit sep (unsplit sep ps ++ y) = initStrs ps ++ jsSplit sep (lastStr ps ++ y) := by
  induction ps with
  | nil => exact absurd rfl hne
  | cons x t ih =>
    cases t with
    | nil => simp [unsplit, initStrs, lastStr]
    | cons p ps' =>
      have hx : sep ∉ x := hfree x (List.mem_cons_self x _)
      have hrec := ih (by simp) (fun l hl => hfree l (List.mem_cons_of_mem x hl))
      rw [show unsplit sep (x :: p :: ps') = x ++ sep :: unsplit sep (p :: ps') from rfl]
      rw [List.append_assoc, List.cons_append,
        jsSplit_append_not_mem sep x (sep :: (unsplit sep (p :: ps') ++ y)) hx,
        jsSplit_cons_sep]
      simp only [List.headD_cons, List.tail_cons, List.append_nil]
      rw [hrec, initStrs_cons_cons, lastStr_cons_cons, List.cons_append]

theorem flatten_map_append_sep (sep : Char) (ps : List (List Char)) (hne : ps ≠ []) :
    ((initStrs ps).map (· ++ [sep])).flatten ++ lastStr ps = unsplit sep ps := by
  induction ps with
  | nil => exact absurd rfl hne
  | cons x t ih =>
    cases t with
    | nil => simp [initStrs, lastStr, unsplit]
    | cons y t' =>
      rw [initStrs_cons_cons, lastStr_cons_cons, List.map_cons, List.flatten_cons,
        show unsplit sep (x :: y :: t') = x ++ sep :: unsplit sep (y :: t') from rfl,
        List.append_assoc, ih (by simp)]
      simp

theorem endsWithNL_eq_false (l : List Char) (h : '\n' ∉ l) : endsWithNL l = false := by
  induction l with
  | nil => rfl
  | cons c t ih =>
    cases t with
    | nil =>
      have : c ≠ '\n' := fun hc => h (by simp [hc])
      simpa [endsWithNL] using this
    | cons y t' =>
      rw [show endsWithNL (c :: y :: t') = endsWithNL (y :: t') from rfl]
      exact ih (fun hm => h (List.mem_cons_of_mem c hm))

theorem fmtLine_of_sse (l : List Char) (h1 : sseLine l = true) (h2 : '\n' ∉ l) :
    fmtLine l = l ++ ['\n'] := by
  have hnl := endsWithNL_eq_false l h2
  unfold fmtLine
  rw [hnl]
  simp only [Bool.not_false, Bool.and_true]
  unfold sseLine at h1
  rcases Bool.or_eq_true_iff.mp h1 with h | h
  · rcases Bool.or_eq_true_iff.mp h with h | h
    · rw [if_pos h]
    · by_cases hd : "data:".toList.isPrefixOf l = true
      · rw [if_pos hd]
      · rw [if_neg hd, if_pos h]
  · by_cases hd : "data:".toList.isPrefixOf l = true
    · rw [if_pos hd]
    · by_cases he : "event:".toList.isPrefixOf l = true
      · rw [if_neg hd, if_pos he]
      · rw [if_neg hd, if_neg he, if_pos h]

theorem runSSE_eq_of_sse (buffer : List Char) (chunks : List (List Char))
    (hbuf : '\n' ∉ buffer)
    (h : ∀ l ∈ initStrs (jsSplit '\n' (buffer ++ chunks.flatten)), sseLine l = true) :
    runSSE buffer chunks = buffer ++ chunks.flatten := by
  induction chunks generalizing buffer with
  | nil => simp [runSSE]
  | cons c cs ih =>
    set parts := jsSplit '\n' (buffer ++ c) with hparts
    have hpne : parts ≠ [] := jsSplit_ne_nil '\n' (buffer ++ c)
    have hpfree : ∀ l ∈ parts, '\n' ∉ l := not_mem_of_mem_jsSplit '\n' (buffer ++ c)
    have hco : unsplit '\n' parts = buffer ++ c := unsplit_jsSplit '\n' (buffer ++ c)
    -- decompose the split of the whole remaining input
    have hdecomp : jsSplit '\n' (buffer ++ (c :: cs).flatten)
        = initStrs parts ++ jsSplit '\n' (lastStr parts ++ cs.flatten) := by
      have : buffer ++ (c :: cs).flatten = unsplit '\n' parts ++ cs.flatten := by
        rw [hco, List.flatten_cons, ← List.append_assoc]
      rw [this, jsSplit_unsplit_append '\n' parts cs.flatten hpne hpfree]
    have hsplit := h
    rw [hdecomp, initStrs_append_ne_nil _ _ (jsSplit_ne_nil _ _)] at hsplit
    have hinit : ∀ l ∈ initStrs parts, sseLine l = true := fun l hl =>
      hsplit l (List.mem_append_left _ hl)
    have hrest : ∀ l ∈ initStrs (jsSplit '\n' (lastStr parts ++ cs.flatten)),
        sseLine l = true := fun l hl => hsplit l (List.mem_append_right _ hl)
    have hlastfree : '\n' ∉ lastStr parts := hpfree _ (lastStr_mem parts hpne)
    have hout : ((initStrs parts).map fmtLine).flatten ++ lastStr parts = buffer ++ c := by
      rw [List.map_congr_left (fun l hl =>
        fmtLine_of_sse l (hinit l hl) (hpfree l (mem_of_mem_initStrs parts l hl))),
        flatten_map_append_sep '\n' parts hpne, hco]
    calc runSSE buffer (c :: cs)
        = ((initStrs parts).map fmtLine).flatten ++ runSSE (lastStr parts) cs := rfl
      _ = ((initStrs parts).map fmtLine).flatten ++ (lastStr parts ++ cs.flatten) := by
          rw [ih (lastStr parts) hlastfree hrest]
      _ = buffer ++ (c :: cs).flatten := by
          rw [← List.append_assoc, hout, List.flatten_cons, List.append_assoc]

/-- C1 (counterexample): the SSE normalizer is not a pure repartitioning of
the received bytes on all inputs — feeding the single chunk `"x\n"` emits
only `"x"`: the complete line `"x"` starts with none of `data:`/`event:`
and is not blank, so `_transform` pushes it without restoring its
newline. -/
theorem c1_counterexample :
    runSSE [] [['x', '\n']] ≠ [['x', '\n']].flatten := by decide

/-- C1 (amended): whenever every complete line of the received upstream
byte stream is an SSE line — starts with `data:` or `event:`, or is blank —
the bytes emitted by `SSEChunkHandler` (including the end-of-stream flush
of the carry-over buffer) are exactly the received bytes in order: the
handler merely reframes them at line boundaries, each complete line being
re-emitted with its terminating newline. -/
theorem c1_sse_pure_repartition (chunks : List (List Char))
    (h : ∀ l ∈ initStrs (jsSplit '\n' chunks.flatten), sseLine l = true) :
    runSSE [] chunks = chunks.flatten := by
  simpa using runSSE_eq_of_sse [] chunks (by simp) (by simpa using h)

theorem c1_witness :
    runSSE [] ["data: hi".toList, "\n\n".toList]
      = (["data: hi".toList, "\n\n".toList]).flatten :=
  c1_sse_pure_repartition ["data: hi".toList, "\n\n".toList] (by decide)

/-- C2 (counterexample): after the first byte has been sent
(`headersSent = true`), the streaming error handler performs nothing but
`res.end()` — in particular it does not write the claimed SSE
`event: error` record. -/
theorem c2_counterexample :
    handleStreamError true "upstream connection reset" = [RespAction.endResponse] ∧
    RespAction.write "event: error\n" ∉ handleStreamError true "upstream connection reset" := by
  exact ⟨rfl, by decide⟩

/-- C2 (amended): when a streaming error occurs while the response headers
have not yet been sent, the server responds with
`ErrorFormatter.openAIApiError(msg, 'streaming_error')` — HTTP status 500
and the JSON error body with type `streaming_error`, not an SSE event —
and ends the response; once the first byte has been sent, the stream is
simply closed (`res.end()`) with no error event of any kind. -/
theorem c2_stream_error_event (msg : String) :
    handleStreamError false msg
      = [RespAction.statusJson (openAIApiError msg "streaming_error" 500),
         RespAction.endResponse] ∧
    (openAIApiError msg "streaming_error" 500).status = 500 ∧
    (openAIApiError msg "streaming_error" 500).etype = "streaming_error" ∧
    handleStreamError true msg = [RespAction.endResponse] :=
  ⟨rfl, rfl, rfl, rfl⟩

/-- C3 (counterexample): when no local API key is configured, a request
without any `Authorization` or `x-api-key` header passes the middleware
(`next`), instead of being rejected with 401 `authentication_error` as the
claim demands of every request. -/
theorem c3_counterexample :
    proxyValidateApiKey none none none = ProxyOutcome.next ∧
    proxyValidateApiKey none none none
      ≠ ProxyOutcome.reject 401 "authentication_error" "Invalid or missing API key" :=
  ⟨rfl, by decide⟩

/-- C3 (amended): when local API keys are configured, a request whose
derived key (from `x-api-key` or `Authorization`, Bearer prefix stripped,
trimmed) is missing, empty, or not among the configured keys is rejected
with HTTP 401 and error type `authentication_error` before the route
handler, and a request whose derived key matches passes; when no key is
configured, validation is skipped entirely. -/
theorem c3_key_gate (keys : List String) (xApiKeyHeader authHeader : Option String) :
    (cleanApiKeyOf xApiKeyHeader authHeader = none →
      proxyValidateApiKey (some keys) xApiKeyHeader authHeader
        = ProxyOutcome.reject 401 "authentication_error" "Invalid or missing API key") ∧
    (∀ k, cleanApiKeyOf xApiKeyHeader authHeader = some k → k = "" →
      proxyValidateApiKey (some keys) xApiKeyHeader authHeader
        = ProxyOutcome.reject 401 "authentication_error" "Invalid or missing API key") ∧
    (∀ k, cleanApiKeyOf xApiKeyHeader authHeader = some k → keys.contains k = false →
      proxyValidateApiKey (some keys) xApiKeyHeader authHeader
        = ProxyOutcome.reject 401 "authentication_error" "Invalid or missing API key") ∧
    (∀ k, cleanApiKeyOf xApiKeyHeader authHeader = some k → k ≠ "" → keys.contains k = true →
      proxyValidateApiKey (some keys) xApiKeyHeader authHeader = ProxyOutcome.next) := by
  refine ⟨fun h => ?_, fun k hk he => ?_, fun k hk hc => ?_, fun k hk hne hc => ?_⟩
  · simp [proxyValidateApiKey, h]
  · simp [proxyValidateApiKey, hk, he]
  · by_cases hke : k = ""
    · simp [proxyValidateApiKey, hk, hke]
    · simp only [proxyValidateApiKey, hk, if_neg hke, hc]
      simp
  · simp only [proxyValidateApiKey, hk, if_neg hne, hc]
    simp

theorem c3_witness :
    proxyValidateApiKey (some ["sk-local-1"]) none (some "Bearer sk-local-1")
      = ProxyOutcome.next :=
  (c3_key_gate ["sk-local-1"] none (some "Bearer sk-local-1")).2.2.2 "sk-local-1"
    (by decide) (by decide) (by decide)

/-- C4 (counterexample): for `resource_url = "https://api.qwen.ai/"` the
code appends only `v1` after the trailing slash, yielding
`https://api.qwen.ai/v1`, while the claim's literal rule — append `/v1`
whenever the URL does not already end in `/v1` — would yield
`https://api.qwen.ai//v1`. -/
theorem c4_counterexample :
    getApiEndpoint (some ⟨none, none, none, some "https://api.qwen.ai/", 0⟩)
        = "https://api.qwen.ai/v1" ∧
    specEffectiveBase (some ⟨none, none, none, some "https://api.qwen.ai/", 0⟩)
        = "https://api.qwen.ai//v1" ∧
    getApiEndpoint (some ⟨none, none, none, some "https://api.qwen.ai/", 0⟩)
        ≠ specEffectiveBase (some ⟨none, none, none, some "https://api.qwen.ai/", 0⟩) := by
  refine ⟨by decide, by decide, by decide⟩

/-- C4 (amended): the effective upstream base URL is the vendor default
when `resource_url` is absent, otherwise the `resource_url` with `https://`
prepended when it does not start with `http` and a `/v1` suffix ensured —
where after a trailing slash only `v1` is appended, so exactly one slash
separates; `"portal.qwen.ai"` yields `"https://portal.qwen.ai/v1"`, and a
URL with scheme already ending in `/v1` is returned unchanged. -/
theorem c4_endpoint_policy :
    getApiEndpoint none = DEFAULT_QWEN_API_BASE_URL ∧
    getApiEndpoint (some ⟨none, none, none, some "portal.qwen.ai", 0⟩)
      = "https://portal.qwen.ai/v1" ∧
    (∀ r : String, strStartsWith r "http" = true → strEndsWith r "/v1" = true → r ≠ "" →
      ∀ c : QwenCredentials, c.resource_url = some r → getApiEndpoint (some c) = r) ∧
    (∀ c : Option QwenCredentials, getApiEndpoint c = specEffectiveBaseAmended c) := by
  refine ⟨rfl, by decide, ?_, ?_⟩
  · intro r h1 h2 hr c hc
    simp [getApiEndpoint, hc, hr, h1, h2]
  · intro c
    match c with
    | none => rfl
    | some cred => rfl

theorem c4_witness :
    getApiEndpoint (some ⟨none, none, none, some "https://custom.endpoint.com/v1", 0⟩)
      = "https://custom.endpoint.com/v1" :=
  c4_endpoint_policy.2.2.1 "https://custom.endpoint.com/v1" (by decide) (by decide)
    (by decide) ⟨none, none, none, some "https://custom.endpoint.com/v1", 0⟩ rfl

/-- C5 (confirmed): after a successful refresh-token exchange, the
persisted bundle keeps the previous `refresh_token` when the response
omits one, replaces `resource_url` exactly when the response supplies a
non-empty one (preserving the stored value otherwise), and sets
`expiry_date` to `now + expires_in * 1000`. -/
theorem c5_refresh_preserves (credentials : QwenCredentials) (tokenData : TokenData)
    (now : Int) :
    (tokenData.refresh_token = none →
      (newCredentials credentials tokenData now).refresh_token = credentials.refresh_token) ∧
    (tokenData.resource_url = none →
      (newCredentials credentials tokenData now).resource_url = credentials.resource_url) ∧
    (∀ r, tokenData.resource_url = some r → r ≠ "" →
      (newCredentials credentials tokenData now).resource_url = some r) ∧
    (newCredentials credentials tokenData now).expiry_date = now + tokenData.expires_in * 1000 := by
  refine ⟨fun h => ?_, fun h => ?_, fun r h hr => ?_, rfl⟩
  · simp [newCredentials, jsOr, h]
  · simp [newCredentials, jsOr, h]
  · simp [newCredentials, jsOr, h, hr]

theorem c5_witness :
    (newCredentials ⟨some "t0", some "Bearer", some "r0", some "portal.qwen.ai", 0⟩
        ⟨"t1", "Bearer", none, none, 3600⟩ 5).refresh_token = some "r0" ∧
    (newCredentials ⟨some "t0", some "Bearer", some "r0", some "portal.qwen.ai", 0⟩
        ⟨"t1", "Bearer", none, none, 3600⟩ 5).resource_url = some "portal.qwen.ai" ∧
    (newCredentials ⟨some "t0", some "Bearer", some "r0", some "portal.qwen.ai", 0⟩
        ⟨"t1", "Bearer", none, none, 3600⟩ 5).expiry_date = 5 + 3600 * 1000 := by
  have h := c5_refresh_preserves ⟨some "t0", some "Bearer", some "r0", some "portal.qwen.ai", 0⟩
    ⟨"t1", "Bearer", none, none, 3600⟩ 5
  exact ⟨h.1 rfl, h.2.1 rfl, h.2.2.2⟩

theorem checkAccountForRefresh_iff (expiry now : Int) (k : Nat) :
    checkAccountForRefresh expiry now k = true ↔
      (expiry ≤ now ∨ minutesLeftOf expiry now ≤ 10
        ∨ minutesLeftOf expiry now ≤ (refreshThreshold k : Rat)) := by
  unfold checkAccountForRefresh
  split_ifs with h1 h2 h3 <;> simp_all

/-- C6 (confirmed): one sweep of `checkAndRefreshExpiredAccounts` selects
an account exactly when its token is expired, or has at most 10 minutes
left, or has `minutes_left ≤ R` for the freshly drawn per-account random
threshold `R = k + 10 ∈ [10, 30]` (with `k = Math.floor(Math.random()*21)`);
every expired or ≤10-minute account is selected and no account with more
than 30 minutes left ever is. -/
theorem c6_refresh_selection (expiry now : Int) (k : Nat) (hk : k ≤ 20) :
    (checkAccountForRefresh expiry now k = true ↔
      (expiry ≤ now ∨ minutesLeftOf expiry now ≤ 10
        ∨ minutesLeftOf expiry now ≤ (refreshThreshold k : Rat))) ∧
    (expiry ≤ now ∨ minutesLeftOf expiry now ≤ 10 →
      checkAccountForRefresh expiry now k = true) ∧
    (30 < minutesLeftOf expiry now → checkAccountForRefresh expiry now k = false) ∧
    10 ≤ refreshThreshold k ∧ refreshThreshold k ≤ 30 := by
  have hth30 : refreshThreshold k ≤ 30 := by unfold refreshThreshold; omega
  refine ⟨checkAccountForRefresh_iff expiry now k, fun h => ?_, fun h30 => ?_,
    by unfold refreshThreshold; omega, hth30⟩
  · refine (checkAccountForRefresh_iff expiry now k).mpr ?_
    rcases h with h | h
    · exact Or.inl h
    · exact Or.inr (Or.inl h)
  · unfold minutesLeftOf at h30
    rw [lt_div_iff₀ (by norm_num : (0 : Rat) < 60000)] at h30
    by_contra hc
    rw [Bool.not_eq_false] at hc
    rcases (checkAccountForRefresh_iff expiry now k).mp hc with h | h | h
    · have hnum : ((expiry - now : Int) : Rat) ≤ 0 := by
        exact_mod_cast (by omega : (expiry - now : Int) ≤ 0)
      linarith
    · unfold minutesLeftOf at h
      rw [div_le_iff₀ (by norm_num : (0 : Rat) < 60000)] at h
      linarith
    · unfold minutesLeftOf at h
      rw [div_le_iff₀ (by norm_num : (0 : Rat) < 60000)] at h
      have hkr : (refreshThreshold k : Rat) ≤ 30 := by exact_mod_cast hth30
      have : (refreshThreshold k : Rat) * 60000 ≤ 30 * 60000 :=
        mul_le_mul_of_nonneg_right hkr (by norm_num)
      linarith

theorem c6_witness :
    checkAccountForRefresh 0 0 0 = true :=
  (c6_refresh_selection 0 0 0 (by decide)).2.1 (Or.inl le_rfl)

theorem checkPermissions_chat_eq_false (perms : List String)
    (h1 : "chat.completions" ∉ perms) (h2 : "chat.completions.create" ∉ perms)
    (h3 : "full_access" ∉ perms) (h4 : "*" ∉ perms) :
    checkPermissions "/v1/chat/completions" perms = false := by
  simp [checkPermissions, permissionMapLookup, h1, h2, h3, h4]

theorem strStartsWith_append (s t : String) : strStartsWith (s ++ t) s = true := by
  have hdata : (s ++ t).toList = s.toList ++ t.toList := String.data_append s t
  rw [strStartsWith, hdata]
  exact List.isPrefixOf_iff_prefix.mpr (List.prefix_append _ _)

theorem strDrop_append_bearer (t : String) : strDrop ("Bearer " ++ t) 7 = t := by
  have hdata : ("Bearer " ++ t).toList = "Bearer ".toList ++ t.toList :=
    String.data_append "Bearer " t
  rw [strDrop, hdata, show (7 : Nat) = "Bearer ".toList.length from rfl, List.drop_left]
  rfl

/-- C7 (confirmed): a well-formed request to `/v1/chat/completions`
carrying a validated key that is not revoked or disabled and whose
permission set contains no chat-completions permission and no
`full_access`/`*` (e.g. `permissions = ["models.list"]`) is rejected with
HTTP 403 and error type `permission_error`; and any key whose permissions
include `full_access` passes `checkPermissions` for every endpoint. -/
theorem c7_permission_denied (validateKeyFn : String → Option DashKeyData)
    (rawKey : String) (kd : DashKeyData)
    (hlookup : validateKeyFn (jsTrim rawKey) = some kd)
    (hfmt : strStartsWith (jsTrim rawKey) "sk-proj-" = true)
    (hlen : 20 ≤ (jsTrim rawKey).length)
    (hrev : kd.status ≠ some "revoked") (hdis : kd.status ≠ some "disabled")
    (h1 : "chat.completions" ∉ kd.permissions)
    (h2 : "chat.completions.create" ∉ kd.permissions)
    (h3 : "full_access" ∉ kd.permissions) (h4 : "*" ∉ kd.permissions) :
    mwValidateApiKey (some ("Bearer " ++ rawKey)) validateKeyFn "/v1/chat/completions"
      = MwOutcome.reject 403 "permission_error" "insufficient_permissions" ∧
    (∀ (endpoint : String) (perms : List String), "full_access" ∈ perms →
      checkPermissions endpoint perms = true) := by
  constructor
  · have hperm := checkPermissions_chat_eq_false kd.permissions h1 h2 h3 h4
    simp only [mwValidateApiKey, strStartsWith_append, strDrop_append_bearer,
      hlookup, hfmt, hlen, hperm]
    simp [hrev, hdis, Nat.not_lt_of_le hlen]
  · intro endpoint perms hp
    have hcont : perms.contains "full_access" = true := by simp [List.contains, hp]
    simp only [checkPermissions]
    simp
    exact Or.inr (Or.inl (Or.inr hp))

theorem c7_witness :
    mwValidateApiKey (some ("Bearer " ++ "sk-proj-abcdefghijkl"))
      (fun s => if s = "sk-proj-abcdefghijkl"
        then some ⟨"key_1", "test", none, ["models.list"], none⟩ else none)
      "/v1/chat/completions"
      = MwOutcome.reject 403 "permission_error" "insufficient_permissions" :=
  (c7_permission_denied
    (fun s => if s = "sk-proj-abcdefghijkl"
      then some ⟨"key_1", "test", none, ["models.list"], none⟩ else none)
    "sk-proj-abcdefghijkl" ⟨"key_1", "test", none, ["models.list"], none⟩
    (by decide) (by decide) (by decide) (by decide) (by decide)
    (by decide) (by decide) (by decide) (by decide)).1

/-- C10 (confirmed): for every endpoint without an entry in the
endpoint-to-permission map — `/v1/web/search` in particular — the required
permission list defaults to `[]` and `checkPermissions` succeeds for every
permission set, even the empty one. -/
theorem c10_unmapped_endpoints_pass (endpoint : String) (permissions : List String)
    (h1 : endpoint ≠ "/v1/chat/completions") (h2 : endpoint ≠ "/v1/models") :
    checkPermissions endpoint permissions = true := by
  simp [checkPermissions, permissionMapLookup, h1, h2]

theorem c10_witness : checkPermissions "/v1/web/search" [] = true :=
  c10_unmapped_endpoints_pass "/v1/web/search" [] (by decide) (by decide)

/-- C9 (counterexample): `rows = 0` is a number less than 1, yet the
handler does not reject it — `0` is falsy in JS, so the `rows && (...)`
guard is skipped and the request proceeds with the default `rows || 10`. -/
theorem c9_counterexample :
    ¬ (∀ rows : Option JValue, isNumberJV rows = true → jvNum rows < 1 →
        ∃ e, handleWebSearch (some (JValue.jstr "bitcoin")) none rows
               = WebSearchStep.reject e
          ∧ e.status = 400 ∧ e.etype = "validation_error") := by
  intro h
  obtain ⟨e, he, -, -⟩ := h (some (JValue.jnum 0)) rfl (by decide)
  have hx : handleWebSearch (some (JValue.jstr "bitcoin")) none (some (JValue.jnum 0))
      = WebSearchStep.callUpstream 1 10 := by decide
  rw [hx] at he
  exact WebSearchStep.noConfusion he

/-- C9 (amended): with a valid query and page, `rows = 100` passes the web
search input validation, any truthy `rows` value that is a non-number,
less than 1, or greater than 100 is rejected with HTTP 400 and error type
`validation_error` before any upstream call, and any falsy `rows` value
(absent, `null`, `0`, `false`, the empty string) bypasses the check and
defaults to 10. -/
theorem c9_rows_validation (query page rows : Option JValue)
    (hq : jsTruthy query = true) (hqs : isStringJV query = true)
    (hp : ¬ (jsTruthy page = true ∧ (isNumberJV page = false ∨ jvNum page < 1))) :
    (rows = some (JValue.jnum 100) →
      handleWebSearch query page rows
        = WebSearchStep.callUpstream (if jsTruthy page = true then jvNum page else 1) 100) ∧
    (jsTruthy rows = true →
      isNumberJV rows = false ∨ jvNum rows < 1 ∨ 100 < jvNum rows →
      handleWebSearch query page rows
        = WebSearchStep.reject (openAIValidationError "Rows must be a number between 1 and 100")) ∧
    (jsTruthy rows = false →
      handleWebSearch query page rows
        = WebSearchStep.callUpstream (if jsTruthy page = true then jvNum page else 1) 10) := by
  have hqc : ¬ (jsTruthy query = false ∨ isStringJV query = false) := by simp [hq, hqs]
  refine ⟨fun hr => ?_, fun h1 h2 => ?_, fun h1 => ?_⟩
  · subst hr
    have hrowsok : ¬ (jsTruthy (some (JValue.jnum 100)) = true ∧
        (isNumberJV (some (JValue.jnum 100)) = false
          ∨ jvNum (some (JValue.jnum 100)) < 1 ∨ 100 < jvNum (some (JValue.jnum 100)))) := by
      decide
    simp only [handleWebSearch, if_neg hqc, if_neg hp, if_neg hrowsok]
    rfl
  · have hcond : jsTruthy rows = true ∧
        (isNumberJV rows = false ∨ jvNum rows < 1 ∨ 100 < jvNum rows) := ⟨h1, h2⟩
    simp only [handleWebSearch, if_neg hqc, if_neg hp, if_pos hcond]
  · have hc : ¬ (jsTruthy rows = true ∧
        (isNumberJV rows = false ∨ jvNum rows < 1 ∨ 100 < jvNum rows)) := by
      simp [h1]
    simp only [handleWebSearch, if_neg hqc, if_neg hp, if_neg hc, h1]
    simp [h1]

theorem c9_witness :
    handleWebSearch (some (JValue.jstr "q")) none (some (JValue.jnum 101))
      = WebSearchStep.reject (openAIValidationError "Rows must be a number between 1 and 100") :=
  (c9_rows_validation (some (JValue.jstr "q")) none (some (JValue.jnum 101))
    rfl rfl (by decide)).2.1 rfl (by decide)

theorem jsSplit_no_sep (sep : Char) (l : List Char) (h : sep ∉ l) :
    jsSplit sep l = [l] := by
  have hx := jsSplit_append_not_mem sep l [] h
  simpa [jsSplit] using hx

theorem validateKeyScan_append_of_fail
    (pbkdf2 : List Char → List Char → Nat → List Char) (apiKey : List Char)
    (store rest : List KeyEntry)
    (h : ∀ e ∈ store, e.status = "active".toList →
      verifyApiKey pbkdf2 apiKey e.keyHash = false) :
    validateKeyScan pbkdf2 apiKey (store ++ rest) = validateKeyScan pbkdf2 apiKey rest := by
  induction store with
  | nil => rfl
  | cons e t ih =>
    have he := h e (List.mem_cons_self e t)
    have ht := ih (fun x hx hs => h x (List.mem_cons_of_mem e hx) hs)
    by_cases hs : e.status = "active".toList
    · rw [List.cons_append,
        show validateKeyScan pbkdf2 apiKey (e :: (t ++ rest))
          = if e.status = "active".toList then
              (if verifyApiKey pbkdf2 apiKey e.keyHash then
                some { id := e.id, name := e.name, permissions := e.permissions,
                       rateLimit := e.rateLimit }
               else validateKeyScan pbkdf2 apiKey (t ++ rest))
            else validateKeyScan pbkdf2 apiKey (t ++ rest) from rfl,
        if_pos hs, he hs]
      simpa using ht
    · rw [List.cons_append,
        show validateKeyScan pbkdf2 apiKey (e :: (t ++ rest))
          = if e.status = "active".toList then
              (if verifyApiKey pbkdf2 apiKey e.keyHash then
                some { id := e.id, name := e.name, permissions := e.permissions,
                       rateLimit := e.rateLimit }
               else validateKeyScan pbkdf2 apiKey (t ++ rest))
            else validateKeyScan pbkdf2 apiKey (t ++ rest) from rfl,
        if_neg hs]
      exact ht

theorem validateKeyScan_cons_hit (pbkdf2 : List Char → List Char → Nat → List Char)
    (apiKey : List Char) (e : KeyEntry) (rest : List KeyEntry)
    (hst : e.status = "active".toList)
    (hv : verifyApiKey pbkdf2 apiKey e.keyHash = true) :
    validateKeyScan pbkdf2 apiKey (e :: rest)
      = some { id := e.id, name := e.name, permissions := e.permissions,
               rateLimit := e.rateLimit } := by
  unfold validateKeyScan
  rw [if_pos hst, if_pos hv]

theorem verify_hashApiKey (pbkdf2 : List Char → List Char → Nat → List Char)
    (apiKey salt : List Char) (hs : '$' ∉ salt)
    (hd : '$' ∉ pbkdf2 apiKey salt hashConfigIterations) :
    verifyApiKey pbkdf2 apiKey (hashApiKey pbkdf2 apiKey salt) = true := by
  have hpre : '$' ∉ ("pbkdf2_".toList ++ hashConfigDigest) := by decide
  have hit : '$' ∉ Nat.toDigits 10 hashConfigIterations := by decide
  have hparse : parseIntJS (Nat.toDigits 10 hashConfigIterations) = hashConfigIterations := by
    decide
  unfold verifyApiKey hashApiKey
  rw [jsSplit_append_not_mem '$' _ _ hpre, jsSplit_cons_sep,
    jsSplit_append_not_mem '$' _ _ hit, jsSplit_cons_sep,
    jsSplit_append_not_mem '$' _ _ hs, jsSplit_cons_sep,
    jsSplit_no_sep '$' _ hd]
  simp [hparse]

/-- C8 (confirmed): a key freshly created by `createKey` validates, while
its entry is `active`, back to a snapshot with the same key id and the
same permission set — parameterized over the PBKDF2 primitive, under the
side conditions that hex-encoded salts and derived keys contain no `$`
and that the new plaintext key verifies against no pre-existing active
hash (no PBKDF2 collision); and `validateKey` returns `null` for any
string lacking the `sk-proj-` prefix, and for any string that verifies
against no stored active key hash. -/
theorem c8_key_roundtrip :
    (∀ (pbkdf2 : List Char → List Char → Nat → List Char) (store : List KeyEntry)
       (name description : List Char) (permissions : List (List Char))
       (rateLimit : Option Nat) (randHex keyId salt createdAt : List Char),
       '$' ∉ salt →
       '$' ∉ pbkdf2 (generateApiKey randHex) salt hashConfigIterations →
       (∀ e ∈ store, e.status = "active".toList →
         verifyApiKey pbkdf2 (generateApiKey randHex) e.keyHash = false) →
       validateKey pbkdf2
         (createKey pbkdf2 store name description permissions rateLimit
           randHex keyId salt createdAt).1
         (createKey pbkdf2 store name description permissions rateLimit
           randHex keyId salt createdAt).2
         = some { id := keyId, name := name, permissions := permissions,
                  rateLimit := rateLimit }) ∧
    (∀ (pbkdf2 : List Char → List Char → Nat → List Char) (store : List KeyEntry)
       (raw : List Char), "sk-proj-".toList.isPrefixOf raw = false →
       validateKey pbkdf2 store raw = none) ∧
    (∀ (pbkdf2 : List Char → List Char → Nat → List Char) (store : List KeyEntry)
       (raw : List Char),
       (∀ e ∈ store, e.status = "active".toList →
         verifyApiKey pbkdf2 raw e.keyHash = false) →
       validateKey pbkdf2 store raw = none) := by
  refine ⟨?_, ?_, ?_⟩
  · intro pbkdf2 store name description permissions rateLimit randHex keyId salt createdAt
      hs hd hstore
    have hne : generateApiKey randHex ≠ [] := by
      have hsp : "sk-proj-".toList ≠ [] := by decide
      unfold generateApiKey
      intro h
      exact hsp (List.append_eq_nil.mp h).1
    have hpre : "sk-proj-".toList.isPrefixOf (generateApiKey randHex) = true :=
      List.isPrefixOf_iff_prefix.mpr (List.prefix_append _ _)
    have hverify := verify_hashApiKey pbkdf2 (generateApiKey randHex) salt hs hd
    simp only [createKey, validateKey, generateApiKey] at *
    rw [if_neg hne, if_neg (not_not_intro hpre),
      validateKeyScan_append_of_fail pbkdf2 _ store _ hstore]
    exact validateKeyScan_cons_hit pbkdf2 _ _ _ rfl hverify
  · intro pbkdf2 store raw hpre
    unfold validateKey
    by_cases h0 : raw = []
    · rw [if_pos h0]
    · rw [if_neg h0, if_pos (show ¬ "sk-proj-".toList.isPrefixOf raw = true by rw [hpre]; simp)]
  · intro pbkdf2 store raw hstore
    unfold validateKey
    by_cases h0 : raw = []
    · rw [if_pos h0]
    · rw [if_neg h0]
      by_cases hp : "sk-proj-".toList.isPrefixOf raw = true
      · rw [if_neg (not_not_intro hp)]
        have hx := validateKeyScan_append_of_fail pbkdf2 raw store [] hstore
        rw [List.append_nil] at hx
        simpa [validateKeyScan] using hx
      · rw [if_pos hp]

theorem c8_witness :
    validateKey (fun k s _ => k ++ s)
      (createKey (fun k s _ => k ++ s) [] "n".toList "d".toList
        ["chat.completions".toList] none "ab".toList "key1".toList "cd".toList "t0".toList).1
      (createKey (fun k s _ => k ++ s) [] "n".toList "d".toList
        ["chat.completions".toList] none "ab".toList "key1".toList "cd".toList "t0".toList).2
      = some { id := "key1".toList, name := "n".toList,
               permissions := ["chat.completions".toList], rateLimit := none } :=
  c8_key_roundtrip.1 (fun k s _ => k ++ s) [] "n".toList "d".toList
    ["chat.completions".toList] none "ab".toList "key1".toList "cd".toList "t0".toList
    (by decide) (by decide) (by intro e he; exact absurd he (List.not_mem_nil e))
